import Mathlib

/-!
Verification of the message-draft store of
`packages/client/components/state/stores/Draft.ts`: per-channel draft data,
the outbox of unsent messages, the attachment file cache, and the send
pipeline (`sendDraft` / `popDraft` / `retrySend` / `cancelSend`), together
with the storage validator `clean`.

Modelling conventions:
* JavaScript strings are `List Char` (named `JStr`), so that slicing is
  `take`/`drop` with JavaScript's clamping behaviour.
* The store record of the class (`drafts`, `outbox`, the private `fileCache`
  and `textSelection`) is an explicit `Store` value threaded through every
  operation; `this.set(...)` becomes a pure update.
* `this.set("drafts", channelId, data)` uses the solid-js store setter, which
  merges the given object key-wise into the existing draft (a key present
  with value `undefined` deletes the field); `mergeDraft` models this, with
  `Option (Option _)` distinguishing an absent key from a key holding
  `undefined`.
* The transport (`channel.sendMessage`, the XMLHttpRequest upload) is an
  oracle `Transport` passed in; the `ulid()` idempotency key is a parameter.
* The configuration constants `CONFIGURATION.MAX_ATTACHMENTS` and
  `CONFIGURATION.MAX_REPLIES` live outside this repository's sources and are
  parameters `maxAttachments` / `maxReplies`.
* Exceptions (the thrown `"Upload Error"`, `TypeError` from reading a
  property of `undefined`) are explicit result constructors.
-/

/-- A JavaScript string, as a list of its code units. -/
abbrev JStr := List Char

namespace Draft

/-- Truthiness of `draft.content`: an optional string is truthy iff it is
present and non-empty. -/
def strTruthy : Option JStr → Bool
  | some (_ :: _) => true
  | _ => false

/-- Truthiness of `draft.files?.length`: falsy iff the array is absent or
empty. -/
def listTruthy : Option (List α) → Bool
  | some (_ :: _) => true
  | _ => false

/-- A reply intent `API.ReplyIntent` held in a draft: message id plus the
mention flag. -/
structure ReplyIntent where
  id : String
  mention : Bool
deriving DecidableEq, Repr

/-- The per-channel draft data `DraftData` (all three fields optional). -/
structure DraftData where
  content : Option JStr := none
  replies : Option (List ReplyIntent) := none
  files : Option (List String) := none
deriving DecidableEq, Repr

/-- The status of an outbox entry. -/
inductive Status where
  | sending
  | unsent
  | failed
deriving DecidableEq, Repr

/-- An outbox entry `UnsentMessage`: an idempotency key and a status
intersected with a `DraftData` snapshot. -/
structure UnsentMessage where
  idempotencyKey : String
  status : Status
  content : Option JStr := none
  replies : Option (List ReplyIntent) := none
  files : Option (List String) := none
deriving DecidableEq, Repr

/-- The `DraftData` part of an outbox entry (what `sendDraft` destructures
from the entry passed back in by `retrySend`). -/
def UnsentMessage.toDraftData (m : UnsentMessage) : DraftData :=
  { content := m.content, replies := m.replies, files := m.files }

/-- The live text selection. The source calls the third field `end`, which is
a reserved word in Lean; it is `endIdx` here. -/
structure TextSelection where
  channelId : String
  start : Nat
  endIdx : Nat
deriving DecidableEq, Repr

/-- An entry of the private `fileCache`: the raw file handle (abstracted to a
token), the optional preview data-URI and pixel dimensions, the memoized
server-assigned `autumnId`, and the value of the upload-progress signal. -/
structure FileEntry where
  file : String
  dataUri : Option String := none
  dimensions : Option (Nat × Nat) := none
  autumnId : Option String := none
  uploadProgress : ℚ := 0
deriving DecidableEq, Repr

/-- The state carried by the store class: the persisted record (`drafts`,
`outbox`) plus the private `fileCache` and `textSelection`. -/
structure Store where
  drafts : String → Option DraftData
  outbox : String → Option (List UnsentMessage)
  fileCache : String → Option FileEntry
  textSelection : Option TextSelection := none

/-- Pointwise update of a string-keyed record (`none` deletes the key). -/
def mapSet (m : String → Option α) (k : String) (v : Option α) :
    String → Option α :=
  fun k' => if k' = k then v else m k'

/-- Source `getDraft`: the stored draft, or an empty object when none
exists. -/
def Store.getDraft (st : Store) (channelId : String) : DraftData :=
  (st.drafts channelId).getD {}

/-- Source `getPendingMessages`: the channel's outbox list, or empty. -/
def Store.getPendingMessages (st : Store) (channelId : String) :
    List UnsentMessage :=
  (st.outbox channelId).getD []

/-- Source `getFile`: the cache entry, or `undefined` (`none`). -/
def Store.getFile (st : Store) (fileId : String) : Option FileEntry :=
  st.fileCache fileId

/-- The partial object passed to `this.set("drafts", channelId, _)`. The
outer `Option` records whether the key is present at all; the inner one is
the JavaScript value (`none` = `undefined`, which deletes the field under
solid-js merge semantics). -/
structure DraftUpdate where
  content : Option (Option JStr) := none
  replies : Option (Option (List ReplyIntent)) := none
  files : Option (Option (List String)) := none

/-- Key-wise merge of a partial draft object into the current draft, as the
solid-js store setter performs it (arrays are replaced whole, never
deep-merged). -/
def mergeDraft (d : DraftData) (u : DraftUpdate) : DraftData where
  content := u.content.getD d.content
  replies := u.replies.getD d.replies
  files := u.files.getD d.files

/-- Source `setDraft` with a defined object argument:
`this.set("drafts", channelId, data)` merged key-wise into the current
draft. (The `undefined` branch of `setDraft` delegates to `clearDraft` and
is not reached by the operations modelled here with an undefined value.) -/
def Store.setDraftObj (st : Store) (channelId : String) (u : DraftUpdate) :
    Store :=
  { st with
    drafts :=
      mapSet st.drafts channelId (some (mergeDraft (st.getDraft channelId) u)) }

/-- Source `clearDraft`: drop every referenced file-cache entry (a plain
`delete this.fileCache[file]`), then set content, replies and files to
empty. -/
def Store.clearDraft (st : Store) (channelId : String) : Store :=
  let files := (st.getDraft channelId).files.getD []
  let st' :=
    { st with fileCache := files.foldl (fun fc f => mapSet fc f none) st.fileCache }
  st'.setDraftObj channelId
    { content := some (some []), replies := some (some []), files := some (some []) }

/-- The value of a JavaScript expression that may be a boolean, `undefined`,
or a thrown `TypeError`. -/
inductive JsBoolish where
  | undefined
  | bool (b : Bool)
  | typeError
deriving DecidableEq, Repr

/-- Source `hasDraft`: `entry && entry.content!.length > 0`. When no entry
exists the `&&` short-circuits to the `undefined` entry itself; when an
entry exists without `content`, reading `.length` of `undefined` throws a
`TypeError`. -/
def Store.hasDraft (st : Store) (channelId : String) : JsBoolish :=
  match st.drafts channelId with
  | none => .undefined
  | some entry =>
    match entry.content with
    | none => .typeError
    | some s => .bool (decide (0 < s.length))

/-- Source `popDraft`: read the draft, truncate the stored file list with
`files?.splice(MAX_ATTACHMENTS)` (the removed tail becomes the new draft's
`files`), reset content and replies, and return the extracted payload whose
`files` is `files.slice(0, MAX_ATTACHMENTS)` of the already-truncated
array. -/
def Store.popDraft (st : Store) (maxAttachments : Nat) (channelId : String) :
    Store × DraftData :=
  let d := st.getDraft channelId
  let splicedTail : Option (List String) := d.files.map (fun fs => fs.drop maxAttachments)
  let truncated : Option (List String) := d.files.map (fun fs => fs.take maxAttachments)
  let st' := st.setDraftObj channelId
    { content := some (some []), replies := some (some []), files := some splicedTail }
  (st',
   { content := d.content, replies := d.replies,
     files := truncated.map (fun fs => fs.take maxAttachments) })

/-- Source `setSelection`: overwrite the single live selection. -/
def Store.setSelection (st : Store) (channelId : String) (start endIdx : Nat) :
    Store :=
  { st with textSelection := some { channelId, start, endIdx } }

/-- Source `insertText`: no-op without a live selection; otherwise splice the
text into the selection's channel draft content between `start` and `end`
(JavaScript `slice`, i.e. clamped `take`/`drop`) and move the selection to a
zero-length cursor after the inserted text. The updater spreads the current
draft, so replies and files are passed through. -/
def Store.insertText (st : Store) (str : JStr) : Store :=
  match st.textSelection with
  | none => st
  | some sel =>
    let d := st.getDraft sel.channelId
    let content := d.content.getD []
    let startStr := content.take sel.start
    let endStr := content.drop sel.endIdx
    let st' := st.setDraftObj sel.channelId
      { content := some (some (startStr ++ str ++ endStr)),
        replies := d.replies.map some,
        files := d.files.map some }
    let pasteEndIdx := startStr.length + str.length
    { st' with
      textSelection := some { sel with start := pasteEndIdx, endIdx := pasteEndIdx } }

/-- Source `addReply`: ignore the call when a reply to the message already
exists or the reply count has reached `MAX_REPLIES`; otherwise append a
reply whose mention flag is `authorId !== selfId && <remembered preference>`
(the preference is the `MENTION_REPLY` layout section state, a parameter
here). -/
def Store.addReply (st : Store) (maxReplies : Nat)
    (channelId messageId authorId selfId : String) (mentionReplyPref : Bool) :
    Store :=
  if ((st.getDraft channelId).replies.getD []).any (fun r => r.id = messageId) then
    st
  else if maxReplies ≤ ((st.getDraft channelId).replies.getD []).length then
    st
  else
    let shouldMention := authorId != selfId && mentionReplyPref
    st.setDraftObj channelId
      { replies := some (some (((st.getDraft channelId).replies.getD []) ++
          [{ id := messageId, mention := shouldMention }])) }

/-- The outcome the upload endpoint gives one attachment request:
`xhr.readyState === 4 && xhr.status === 200` with a response id, or anything
else. -/
inductive UploadOutcome where
  | success (id : String)
  | failure
deriving DecidableEq, Repr

/-- The response id of a successful upload. -/
def UploadOutcome.respId : UploadOutcome → Option String
  | .success i => some i
  | .failure => none

/-- The external transport as an oracle: what the upload endpoint answers for
a given raw file handle, and whether `channel.sendMessage` succeeds. -/
structure Transport where
  upload : String → UploadOutcome
  sendOk : Bool

/-- The `API.DataMessageSend` object handed to `channel.sendMessage`
(`attachments` is deleted from the object when empty). -/
structure DataMessageSend where
  content : Option JStr := none
  replies : Option (List ReplyIntent) := none
  attachments : Option (List String) := none
deriving DecidableEq, Repr

/-- The externally visible calls one `sendDraft` run makes: the file ids for
which an upload request was issued, in order, and the `sendMessage` calls
with their payload and idempotency key. -/
structure Trace where
  uploads : List String := []
  sends : List (DataMessageSend × String) := []
deriving DecidableEq, Repr

/-- How a `sendDraft` run ends. `cacheMiss` is the `TypeError` thrown by
destructuring `this.getFile(fileId)` when the id is not cached;
`uploadError` is the thrown `"Upload Error"`; both escape to the caller. -/
inductive SendResult where
  | noop
  | cacheMiss
  | uploadError
  | sent
  | sendFailed
deriving DecidableEq, Repr

/-- Apply a function to one file-cache entry, when present. -/
def Store.modifyFile (st : Store) (fileId : String) (f : FileEntry → FileEntry) :
    Store :=
  { st with fileCache := mapSet st.fileCache fileId ((st.fileCache fileId).map f) }

/-- The sequential upload loop of `sendDraft` over the draft's file ids:
reuse the memoized `autumnId` when present; otherwise issue the upload
(setting the progress signal to 1 on `loadend` whatever the outcome), throw
`"Upload Error"` on a non-success outcome, and on success memoize the
returned id on the cache entry and append it to the accumulated attachment
list. Returns the state, the accumulated attachments, the upload trace, and
the exception if one was thrown. -/
def uploadFiles (tr : Transport) :
    List String → Store → List String → List String →
    Store × List String × List String × Option SendResult
  | [], st, attachments, uploadTrace => (st, attachments, uploadTrace, none)
  | fileId :: rest, st, attachments, uploadTrace =>
    match st.getFile fileId with
    | none => (st, attachments, uploadTrace, some .cacheMiss)
    | some entry =>
      match entry.autumnId with
      | some autumnId =>
        uploadFiles tr rest st (attachments ++ [autumnId]) uploadTrace
      | none =>
        let st1 := st.modifyFile fileId (fun e => { e with uploadProgress := 1 })
        match tr.upload entry.file with
        | .failure => (st1, attachments, uploadTrace ++ [fileId], some .uploadError)
        | .success responseId =>
          let st2 := st1.modifyFile fileId (fun e => { e with autumnId := some responseId })
          uploadFiles tr rest st2 (attachments ++ [responseId])
            (uploadTrace ++ [fileId])

/-- Source `deleteFile`: revoke the preview URI (no store-visible effect
beyond the entry) and delete the cache entry. -/
def Store.deleteFile (st : Store) (fileId : String) : Store :=
  { st with fileCache := mapSet st.fileCache fileId none }

/-- Source `removeFile`: delete the cache entry, then filter the id out of
the draft's file list (the updater mentions only the `files` key). -/
def Store.removeFile (st : Store) (channelId fileId : String) : Store :=
  let st' := st.deleteFile fileId
  st'.setDraftObj channelId
    { files := some ((st'.getDraft channelId).files.map
        (fun fs => fs.filter (fun f => f ≠ fileId))) }

/-- The first line of source `sendDraft`:
`const draft = existingDraft ?? this.popDraft(channel.id)`, keeping the
state `popDraft` leaves behind. -/
def Store.sendPayload (st : Store) (maxAttachments : Nat) (channelId : String)
    (existingDraft : Option DraftData) : Store × DraftData :=
  match existingDraft with
  | some d => (st, d)
  | none => st.popDraft maxAttachments channelId

/-- Source `sendDraft`: pop the live draft unless an explicit one is given
(see `Store.sendPayload`); abort when the payload has neither content nor
files; append a `sending`-status outbox entry under a fresh idempotency key;
run the sequential upload loop (exceptions escape here, leaving the entry as
it is); delete the `attachments` field when empty; then issue `sendMessage`
— on success remove every referenced file and drop the outbox entry, on
failure mark the matching entry `failed` in place. -/
def Store.sendDraft (st : Store) (tr : Transport) (maxAttachments : Nat)
    (channelId idempotencyKey : String) (existingDraft : Option DraftData) :
    Store × Trace × SendResult :=
  let poppedPair := st.sendPayload maxAttachments channelId existingDraft
  let st0 := poppedPair.1
  let draft := poppedPair.2
  if !strTruthy draft.content && !listTruthy draft.files then (st0, {}, .noop)
  else
    let st1 :=
      { st0 with
        outbox := mapSet st0.outbox channelId (some (st0.getPendingMessages channelId ++
          [{ idempotencyKey, status := .sending, content := draft.content,
             replies := draft.replies, files := draft.files }])) }
    -- `if (files?.length) { for (const fileId of files) ... }`: running the
    -- loop on an empty array is the identity, so the truthiness guard only
    -- needs to distinguish a present array from an absent one.
    let loopOut :=
      match draft.files with
      | some fs => uploadFiles tr fs st1 [] []
      | none => (st1, [], [], none)
    let st2 := loopOut.1
    let attachments := loopOut.2.1
    let uploadTrace := loopOut.2.2.1
    match loopOut.2.2.2 with
    | some exc => (st2, { uploads := uploadTrace }, exc)
    | none =>
      let data : DataMessageSend :=
        { content := draft.content, replies := draft.replies,
          attachments := if attachments.isEmpty then none else some attachments }
      let trace : Trace := { uploads := uploadTrace, sends := [(data, idempotencyKey)] }
      if tr.sendOk then
        let st3 :=
          match draft.files with
          | some fs => fs.foldl (fun (s : Store) f => s.removeFile channelId f) st2
          | none => st2
        let st4 :=
          { st3 with
            outbox := mapSet st3.outbox channelId (some
              ((st3.getPendingMessages channelId).filter
                (fun e => e.idempotencyKey ≠ idempotencyKey))) }
        (st4, trace, .sent)
      else
        let st3 :=
          { st2 with
            outbox := mapSet st2.outbox channelId (some
              ((st2.getPendingMessages channelId).map
                (fun e => if e.idempotencyKey = idempotencyKey then
                  { e with status := .failed } else e))) }
        (st3, trace, .sendFailed)

/-- Source `cancelSend`: drop the outbox entry with the given key. -/
def Store.cancelSend (st : Store) (channelId idempotencyKey : String) : Store :=
  { st with
    outbox := mapSet st.outbox channelId (some
      ((st.getPendingMessages channelId).filter
        (fun e => e.idempotencyKey ≠ idempotencyKey))) }

/-- Source `retrySend`: look the entry up by key in
`this.get().outbox[channel.id]` (a `TypeError`, modelled as `none`, when the
channel has no outbox list at all), remove it via `cancelSend`, and re-run
`sendDraft` with the entry's payload as the explicit draft under a fresh
key (or with no explicit draft when the key is not found). -/
def Store.retrySend (st : Store) (tr : Transport) (maxAttachments : Nat)
    (channelId oldKey newKey : String) :
    Option (Store × Trace × SendResult) :=
  match st.outbox channelId with
  | none => none
  | some entries =>
    let draftEntry := entries.find? (fun e => e.idempotencyKey = oldKey)
    let st' := st.cancelSend channelId oldKey
    some (st'.sendDraft tr maxAttachments channelId newKey
      (draftEntry.map UnsentMessage.toDraftData))

/-- An untrusted JavaScript value, as `clean` can meet it when hydrating
from storage. -/
inductive JVal where
  | undefined : JVal
  | null : JVal
  | str : String → JVal
  | bool : Bool → JVal
  | num : Int → JVal
  | arr : List JVal → JVal
  | obj : List (String × JVal) → JVal

/-- JavaScript `typeof` (note `typeof null === "object"`). -/
def JVal.typeof : JVal → String
  | .undefined => "undefined"
  | .null => "object"
  | .str _ => "string"
  | .bool _ => "boolean"
  | .num _ => "number"
  | .arr _ => "object"
  | .obj _ => "object"

/-- Property access `v[k]`, a `TypeError` on `undefined`/`null`. Arrays
answer numeric index keys; the named properties `clean` reads do not exist
on the other primitives. -/
def JVal.getProp : JVal → String → Except Unit JVal
  | .undefined, _ => .error ()
  | .null, _ => .error ()
  | .obj fields, k =>
    .ok (((fields.find? (fun p => p.1 = k)).map Prod.snd).getD .undefined)
  | .arr xs, k =>
    .ok (match k.toNat? with
      | some i => (xs.get? i).getD .undefined
      | none => .undefined)
  | .str _, _ => .ok .undefined
  | .bool _, _ => .ok .undefined
  | .num _, _ => .ok .undefined

/-- Optional-chained property access `v?.[k]`: `undefined` instead of a
`TypeError` on `undefined`/`null`. -/
def JVal.optProp (v : JVal) (k : String) : JVal :=
  match v with
  | .undefined => .undefined
  | .null => .undefined
  | w => (w.getProp k).toOption.getD .undefined

/-- The callback of `replies.find` in `validateReplies`:
`typeof x !== "object" || typeof x.id !== "string" || typeof x.mention !==
"boolean"`, short-circuit, with property reads that can throw. -/
def replyElemBad (x : JVal) : Except Unit Bool :=
  if x.typeof ≠ "object" then .ok true
  else
    match x.getProp "id" with
    | .error e => .error e
    | .ok idv =>
      if idv.typeof ≠ "string" then .ok true
      else
        match x.getProp "mention" with
        | .error e => .error e
        | .ok mv => .ok (mv.typeof ≠ "boolean")

/-- `replies.find(<bad>)` as a boolean: whether some element satisfies the
callback, stopping at the first hit (or the first thrown `TypeError`). -/
def findBad : List JVal → Except Unit Bool
  | [] => .ok false
  | x :: xs =>
    match replyElemBad x with
    | .error e => .error e
    | .ok true => .ok true
    | .ok false => findBad xs

/-- Source `validateReplies`: an array, non-empty (`replies.length` is
truthy), with no element failing the shape check. -/
def validateReplies : JVal → Except Unit Bool
  | .arr [] => .ok false
  | .arr (x :: xs) =>
    match findBad (x :: xs) with
    | .error e => .error e
    | .ok b => .ok !b
  | _ => .ok false

/-- JavaScript `Object.keys`, as `clean` iterates it: field names of an
object, index strings of an array, empty for other primitives, and a
`TypeError` on `null` (the `typeof === "object"` guard already excludes
`undefined`). -/
def jsKeys : JVal → Except Unit (List String)
  | .obj fields => .ok (fields.map Prod.fst)
  | .arr xs => .ok ((List.range xs.length).map (fun i => toString i))
  | .undefined => .error ()
  | .null => .error ()
  | _ => .ok []

/-- A draft kept by `clean`: validated `content` and the raw `replies`
value when it validated. -/
structure CleanDraft where
  content : Option String := none
  replies : Option JVal := none

/-- An outbox entry kept by `clean`. The source type is `UnsentMessage`;
`status` is kept as the raw string the code writes, `replies` as the raw
stored value, and `files` is never populated (`TODO` in the source). -/
structure CleanMessage where
  idempotencyKey : String
  content : String
  status : String
  replies : Option JVal := none
  files : Option (List String) := none

/-- The validated store record `clean` returns. -/
structure CleanTypeDraft where
  drafts : String → Option CleanDraft
  outbox : String → Option (List CleanMessage)

/-- The untrusted `Partial<TypeDraft>` input of `clean`: the values found
under its `drafts` and `outbox` keys (`undefined` when absent). -/
structure CleanInput where
  drafts : JVal := .undefined
  outbox : JVal := .undefined

/-- The per-channel body of the drafts loop in `clean`: keep `content` when
it is a non-empty string, keep `replies` when `validateReplies` passes, and
keep the draft only when it has at least one key. -/
def cleanDraftEntry (entry : JVal) : Except Unit (Option CleanDraft) :=
  let draftContent : Option String :=
    match entry.optProp "content" with
    | .str s => if s = "" then none else some s
    | _ => none
  match validateReplies (entry.optProp "replies") with
  | .error e => .error e
  | .ok valid =>
    let draftReplies : Option JVal :=
      if valid then some (entry.optProp "replies") else none
    if draftContent.isSome || draftReplies.isSome then
      .ok (some { content := draftContent, replies := draftReplies })
    else
      .ok none

/-- The check `["sending", "unsent", "failed"].includes(message.status)`:
strict equality against the three legal status strings. -/
def statusIncluded (status : JVal) : Bool :=
  match status with
  | .str s => ["sending", "unsent", "failed"].contains s
  | _ => false

/-- The per-message body of the outbox loop in `clean`: an object whose
`status` is one of the three legal strings and whose `idempotencyKey` and
`content` are strings is kept, rewritten to status `"unsent"` with no
`files`, carrying its raw `replies` when they validate. -/
def cleanMessage (message : JVal) : Except Unit (Option CleanMessage) :=
  if message.typeof = "object" then
    match message.getProp "status" with
    | .error e => .error e
    | .ok status =>
      if statusIncluded status then
        match message.getProp "idempotencyKey" with
        | .error e => .error e
        | .ok (.str ikeyStr) =>
          match message.getProp "content" with
          | .error e => .error e
          | .ok (.str contentStr) =>
            match message.getProp "replies" with
            | .error e => .error e
            | .ok repliesV =>
              match validateReplies repliesV with
              | .error e => .error e
              | .ok valid =>
                .ok (some
                  { idempotencyKey := ikeyStr, content := contentStr,
                    status := "unsent",
                    replies := if valid then some repliesV else none })
          | .ok _ => .ok none
        | .ok _ => .ok none
      else
        .ok none
  else
    .ok none

/-- The inner `for (const message of entry)` loop of `clean`. -/
def cleanMessages : List JVal → Except Unit (List CleanMessage)
  | [] => .ok []
  | m :: rest =>
    match cleanMessage m with
    | .error e => .error e
    | .ok head =>
      match cleanMessages rest with
      | .error e => .error e
      | .ok tail =>
        .ok (match head with
          | some msg => msg :: tail
          | none => tail)

/-- One iteration of the `for (const channelId of Object.keys(messageDrafts))`
loop of `clean`: validate the entry at the key and, when something is kept,
record it for the channel. -/
def draftsStep (draftsVal : JVal) (acc : String → Option CleanDraft)
    (channelId : String) : Except Unit (String → Option CleanDraft) :=
  match cleanDraftEntry (draftsVal.optProp channelId) with
  | .error e => .error e
  | .ok (some draft) =>
    .ok (fun k => if k = channelId then some draft else acc k)
  | .ok none => .ok acc

/-- One iteration of the `for (const channelId of Object.keys(pendingMessages))`
loop of `clean`: every key gets a (possibly empty) validated message list;
a non-array channel value yields the empty list. -/
def outboxStep (outboxVal : JVal) (acc : String → Option (List CleanMessage))
    (channelId : String) :
    Except Unit (String → Option (List CleanMessage)) :=
  match outboxVal.getProp channelId with
  | .error e => .error e
  | .ok entry =>
    match (match entry with
           | .arr ms => cleanMessages ms
           | _ => .ok []) with
    | .error e => .error e
    | .ok messages =>
      .ok (fun k => if k = channelId then some messages else acc k)

/-- Source `clean`: validate the untrusted `drafts` and `outbox` maps
field-wise, iterating `Object.keys` of each when it has `typeof`
`"object"`. -/
def clean (input : CleanInput) : Except Unit CleanTypeDraft :=
  match ((if input.drafts.typeof = "object" then
            match jsKeys input.drafts with
            | .error e => .error e
            | .ok keys => keys.foldlM (draftsStep input.drafts) (fun _ => none)
          else .ok (fun _ => none)) :
         Except Unit (String → Option CleanDraft)) with
  | .error e => .error e
  | .ok draftsOut =>
    match ((if input.outbox.typeof = "object" then
              match jsKeys input.outbox with
              | .error e => .error e
              | .ok keys => keys.foldlM (outboxStep input.outbox) (fun _ => none)
            else .ok (fun _ => none)) :
           Except Unit (String → Option (List CleanMessage))) with
    | .error e => .error e
    | .ok outboxOut => .ok { drafts := draftsOut, outbox := outboxOut }

/-! Helper lemmas about the store primitives. -/

theorem mapSet_self (m : String → Option α) (k : String) (v : Option α) :
    mapSet m k v k = v := by
  simp [mapSet]

theorem mapSet_ne (m : String → Option α) (k : String) (v : Option α)
    (k' : String) (h : k' ≠ k) : mapSet m k v k' = m k' := by
  simp [mapSet, h]

theorem getDraft_setDraftObj_self (st : Store) (channelId : String)
    (u : DraftUpdate) :
    (st.setDraftObj channelId u).getDraft channelId =
      mergeDraft (st.getDraft channelId) u := by
  simp [Store.setDraftObj, Store.getDraft, mapSet]

theorem getDraft_setDraftObj_ne (st : Store) (channelId : String)
    (u : DraftUpdate) (channelId' : String) (h : channelId' ≠ channelId) :
    (st.setDraftObj channelId u).getDraft channelId' = st.getDraft channelId' := by
  simp [Store.setDraftObj, Store.getDraft, mapSet, h]

theorem setDraftObj_outbox (st : Store) (channelId : String) (u : DraftUpdate) :
    (st.setDraftObj channelId u).outbox = st.outbox := rfl

theorem setDraftObj_fileCache (st : Store) (channelId : String) (u : DraftUpdate) :
    (st.setDraftObj channelId u).fileCache = st.fileCache := rfl

theorem setDraftObj_textSelection (st : Store) (channelId : String)
    (u : DraftUpdate) :
    (st.setDraftObj channelId u).textSelection = st.textSelection := rfl

theorem foldl_mapSet_none (l : List String) (m : String → Option α) (f : String) :
    (l.foldl (fun fc x => mapSet fc x none) m) f =
      if f ∈ l then none else m f := by
  induction l generalizing m with
  | nil => simp
  | cons x xs ih =>
    simp only [List.foldl_cons, ih, List.mem_cons]
    by_cases hx : f = x
    · subst hx
      simp [mapSet]
    · by_cases hxs : f ∈ xs <;> simp [mapSet, hx, hxs]

/-! The claims. -/

/-- C5: for every channel, `popDraft` returns the draft's content, its
replies and the first `maxAttachments` entries of its file list, and leaves
behind as the new stored draft empty content, empty replies and exactly the
file entries beyond index `maxAttachments`. -/
theorem popDraft_spec (st : Store) (maxAttachments : Nat) (channelId : String) :
    (st.popDraft maxAttachments channelId).2 =
      { content := (st.getDraft channelId).content,
        replies := (st.getDraft channelId).replies,
        files := (st.getDraft channelId).files.map
          (fun fs => fs.take maxAttachments) } ∧
    ((st.popDraft maxAttachments channelId).1).getDraft channelId =
      { content := some [], replies := some [],
        files := (st.getDraft channelId).files.map
          (fun fs => fs.drop maxAttachments) } := by
  constructor
  · simp only [Store.popDraft]
    cases h : (st.getDraft channelId).files with
    | none => simp [h]
    | some fs => simp [h, List.take_take]
  · simp only [Store.popDraft, getDraft_setDraftObj_self, mergeDraft,
      Option.getD_some]

/-- A store whose channel `"c"` holds a files-only draft (no `content`
field), as `addFile` on a fresh channel produces. -/
def filesOnlyStore : Store :=
  { drafts := fun k => if k = "c" then some { files := some ["f1"] } else none,
    outbox := fun _ => none,
    fileCache := fun k => if k = "f1" then some { file := "F1" } else none,
    textSelection := none }

/-- C6 (code bug): `hasDraft` does not return a boolean on the two edge
cases the claim covers. On a files-only draft `entry.content!.length`
reads `.length` of `undefined` and throws a `TypeError` instead of
returning `false`; on a channel with no draft the `&&` short-circuit
returns `undefined`, not a boolean. -/
theorem hasDraft_not_boolean :
    filesOnlyStore.hasDraft "c" = .typeError ∧
    filesOnlyStore.hasDraft "d" = .undefined := by
  decide

/-- A store whose channel `"c"` holds a draft with content and one cached
file. -/
def clearDraftExample : Store :=
  { drafts := fun k =>
      if k = "c" then some { content := some ['h', 'i'], files := some ["f1"] }
      else none,
    outbox := fun _ => none,
    fileCache := fun k => if k = "f1" then some { file := "F1" } else none,
    textSelection := none }

/-- C7 counterexample: after `clearDraft`, `getDraft` is the merged object
with empty-string content and empty arrays — not the empty object `{}`. -/
theorem clearDraft_not_empty_object :
    (clearDraftExample.clearDraft "c").getDraft "c" ≠ ({} : DraftData) := by
  decide

/-- C7 amended: after `clearDraft(C)`, `getDraft(C)` equals the draft with
empty content, empty replies and empty files (not the empty object), and
every file id previously in the draft's file list is gone from the
attachment cache (`getFile` returns `undefined`). -/
theorem clearDraft_spec (st : Store) (channelId : String) :
    (st.clearDraft channelId).getDraft channelId =
      { content := some [], replies := some [], files := some [] } ∧
    ∀ f ∈ (st.getDraft channelId).files.getD [],
      (st.clearDraft channelId).getFile f = none := by
  constructor
  · simp [Store.clearDraft, getDraft_setDraftObj_self, mergeDraft]
  · intro f hf
    simp [Store.clearDraft, Store.setDraftObj, Store.getFile,
      foldl_mapSet_none, hf]

/-- Witness for C7's amended claim at the concrete example store. -/
theorem clearDraft_spec_witness :
    (clearDraftExample.clearDraft "c").getDraft "c" =
      { content := some [], replies := some [], files := some [] } ∧
    (clearDraftExample.clearDraft "c").getFile "f1" = none :=
  ⟨(clearDraft_spec clearDraftExample "c").1,
   (clearDraft_spec clearDraftExample "c").2 "f1" (by decide)⟩

/-- C8: `insertText` with no live text selection changes nothing; with a
live selection whose `start` lies inside the content, it splices the text
into the content over the index range from `start` to `end` and moves the
selection to the zero-length cursor right after the inserted text. -/
theorem insertText_spec (str : JStr) :
    (∀ st : Store, st.textSelection = none → st.insertText str = st) ∧
    (∀ (st : Store) (sel : TextSelection), st.textSelection = some sel →
      sel.start ≤ ((st.getDraft sel.channelId).content.getD []).length →
      ((st.insertText str).getDraft sel.channelId).content =
        some (((st.getDraft sel.channelId).content.getD []).take sel.start ++
          str ++ ((st.getDraft sel.channelId).content.getD []).drop sel.endIdx) ∧
      (st.insertText str).textSelection =
        some { channelId := sel.channelId, start := sel.start + str.length,
               endIdx := sel.start + str.length }) := by
  constructor
  · intro st h
    simp [Store.insertText, h]
  · intro st sel h hlen
    constructor
    · simp [Store.insertText, h, Store.getDraft, Store.setDraftObj, mergeDraft,
        mapSet]
    · simp [Store.insertText, h, List.length_take, Nat.min_eq_left hlen]

/-- A store matching the claim's example: content `"hello"` for channel
`"c"` and live selection from 3 to 5. -/
def insertTextExample : Store :=
  { drafts := fun k => if k = "c" then some { content := some "hello".toList } else none,
    outbox := fun _ => none,
    fileCache := fun _ => none,
    textSelection := some { channelId := "c", start := 3, endIdx := 5 } }

/-- Witness for C8: inserting `"XY"` over selection 3..5 of `"hello"`
yields content `"helXY"` and selection 5..5; with no selection the call is
the identity. -/
theorem insertText_spec_witness :
    ((insertTextExample.insertText "XY".toList).getDraft "c").content =
      some "helXY".toList ∧
    (insertTextExample.insertText "XY".toList).textSelection =
      some { channelId := "c", start := 5, endIdx := 5 } ∧
    filesOnlyStore.insertText "XY".toList = filesOnlyStore := by
  have h := (insertText_spec "XY".toList).2 insertTextExample
    { channelId := "c", start := 3, endIdx := 5 } rfl (by decide)
  exact ⟨by rw [h.1]; decide, by rw [h.2]; decide,
    (insertText_spec "XY".toList).1 filesOnlyStore rfl⟩

/-- The number of reply entries for a given message id in a channel's
draft. -/
def replyCount (st : Store) (channelId messageId : String) : Nat :=
  ((st.getDraft channelId).replies.getD []).countP (fun r => r.id = messageId)

/-- C9: `addReply` is idempotent — running it twice equals running it once;
at `maxReplies` stored replies it leaves the store unchanged; and starting
from a draft without a reply to the message and below the maximum, two
calls leave exactly one reply entry for that message id. -/
theorem addReply_spec (maxReplies : Nat)
    (channelId messageId authorId selfId : String) (pref : Bool) :
    (∀ st : Store,
      (st.addReply maxReplies channelId messageId authorId selfId pref).addReply
          maxReplies channelId messageId authorId selfId pref =
        st.addReply maxReplies channelId messageId authorId selfId pref) ∧
    (∀ st : Store,
      ((st.getDraft channelId).replies.getD []).length = maxReplies →
      st.addReply maxReplies channelId messageId authorId selfId pref = st) ∧
    (∀ st : Store,
      replyCount st channelId messageId = 0 →
      ((st.getDraft channelId).replies.getD []).length < maxReplies →
      replyCount
        ((st.addReply maxReplies channelId messageId authorId selfId pref).addReply
          maxReplies channelId messageId authorId selfId pref)
        channelId messageId = 1) := by
  have hmax : ∀ st : Store,
      ((st.getDraft channelId).replies.getD []).length = maxReplies →
      st.addReply maxReplies channelId messageId authorId selfId pref = st := by
    intro st hlen
    by_cases hex :
        ((st.getDraft channelId).replies.getD []).any (fun r => r.id = messageId)
    · simp [Store.addReply, hex]
    · simp [Store.addReply, hex, hlen]
  have hidem : ∀ st : Store,
      (st.addReply maxReplies channelId messageId authorId selfId pref).addReply
          maxReplies channelId messageId authorId selfId pref =
        st.addReply maxReplies channelId messageId authorId selfId pref := by
    intro st
    by_cases hex :
        ((st.getDraft channelId).replies.getD []).any (fun r => r.id = messageId)
    · simp [Store.addReply, hex]
    · by_cases hfull :
          maxReplies ≤ ((st.getDraft channelId).replies.getD []).length
      · simp [Store.addReply, hex, hfull]
      · have hstep :
            st.addReply maxReplies channelId messageId authorId selfId pref =
              st.setDraftObj channelId
                { replies := some (some (((st.getDraft channelId).replies.getD []) ++
                    [{ id := messageId,
                       mention := authorId != selfId && pref }])) } := by
          simp [Store.addReply, hex, hfull]
        rw [hstep]
        have hnow :
            (((st.setDraftObj channelId
                { replies := some (some (((st.getDraft channelId).replies.getD []) ++
                    [{ id := messageId,
                       mention := authorId != selfId && pref }])) }).getDraft
                channelId).replies.getD []).any (fun r => r.id = messageId) := by
          simp [getDraft_setDraftObj_self, mergeDraft]
        simp [Store.addReply, hnow]
  refine ⟨hidem, hmax, ?_⟩
  intro st hcount hlt
  rw [hidem st]
  have hex :
      ((st.getDraft channelId).replies.getD []).any (fun r => r.id = messageId) =
        false := by
    rw [List.any_eq_false]
    intro r hr
    by_contra hc
    have : 0 < replyCount st channelId messageId := by
      unfold replyCount
      exact List.countP_pos_iff.mpr ⟨r, hr, by simpa using hc⟩
    omega
  have hfull : ¬ maxReplies ≤ ((st.getDraft channelId).replies.getD []).length := by
    omega
  have hstep :
      st.addReply maxReplies channelId messageId authorId selfId pref =
        st.setDraftObj channelId
          { replies := some (some (((st.getDraft channelId).replies.getD []) ++
              [{ id := messageId,
                 mention := authorId != selfId && pref }])) } := by
    simp [Store.addReply, hex, hfull]
  rw [hstep]
  unfold replyCount at hcount ⊢
  simp [getDraft_setDraftObj_self, mergeDraft, List.countP_append, hcount]

/-- Witness for C9: from the empty store with two slots, two identical
`addReply` calls leave exactly one reply entry; at the maximum, `addReply`
changes nothing; and the double call equals the single call. -/
theorem addReply_spec_witness :
    replyCount
      (((filesOnlyStore.addReply 2 "c" "m" "a" "s" true).addReply 2 "c" "m" "a" "s" true))
      "c" "m" = 1 ∧
    insertTextExample.addReply 0 "c" "m" "a" "s" true = insertTextExample := by
  refine ⟨(addReply_spec 2 "c" "m" "a" "s" true).2.2 filesOnlyStore (by decide) (by decide), ?_⟩
  exact (addReply_spec 0 "c" "m" "a" "s" true).2.1 insertTextExample (by decide)

/-! Frame lemmas for the send pipeline. -/

theorem popDraft_outbox (st : Store) (maxAttachments : Nat) (channelId : String) :
    ((st.popDraft maxAttachments channelId).1).outbox = st.outbox := rfl

theorem popDraft_fileCache (st : Store) (maxAttachments : Nat) (channelId : String) :
    ((st.popDraft maxAttachments channelId).1).fileCache = st.fileCache := rfl

theorem sendPayload_outbox (st : Store) (maxAttachments : Nat)
    (channelId : String) (existingDraft : Option DraftData) :
    ((st.sendPayload maxAttachments channelId existingDraft).1).outbox = st.outbox := by
  cases existingDraft <;> rfl

theorem sendPayload_fileCache (st : Store) (maxAttachments : Nat)
    (channelId : String) (existingDraft : Option DraftData) :
    ((st.sendPayload maxAttachments channelId existingDraft).1).fileCache =
      st.fileCache := by
  cases existingDraft <;> rfl

/-- A transport on which every upload fails and the send call fails. -/
def failTransport : Transport := { upload := fun _ => .failure, sendOk := false }

/-- A store whose channel `"c"` holds a replies-only draft. -/
def repliesOnlyStore : Store :=
  { drafts := fun k =>
      if k = "c" then some { replies := some [{ id := "m", mention := false }] }
      else none,
    outbox := fun _ => none,
    fileCache := fun _ => none,
    textSelection := none }

/-- C1 counterexample: on a replies-only draft the popped payload has no
content and no files, `sendDraft` aborts — yet the stored draft is not left
as it was: `popDraft` already discarded the replies. -/
theorem sendDraft_empty_pop_changes_draft :
    ((repliesOnlyStore.sendDraft failTransport 128 "c" "k" none).1).getDraft "c" ≠
      repliesOnlyStore.getDraft "c" := by
  decide

/-- C1 amended: when the popped payload has no content and no files,
`sendDraft` without an explicit draft queues nothing (outbox untouched),
issues no transport call (empty trace), and leaves the file cache alone —
but the stored draft is not preserved: it is the reset draft `popDraft`
leaves behind (empty content and replies, only the file entries beyond
`maxAttachments`). -/
theorem sendDraft_empty_pop_spec (st : Store) (tr : Transport)
    (maxAttachments : Nat) (channelId idempotencyKey : String)
    (hc : strTruthy ((st.popDraft maxAttachments channelId).2).content = false)
    (hf : listTruthy ((st.popDraft maxAttachments channelId).2).files = false) :
    st.sendDraft tr maxAttachments channelId idempotencyKey none =
      ((st.popDraft maxAttachments channelId).1, {}, .noop) ∧
    ((st.popDraft maxAttachments channelId).1).outbox = st.outbox ∧
    ((st.popDraft maxAttachments channelId).1).fileCache = st.fileCache ∧
    ((st.popDraft maxAttachments channelId).1).getDraft channelId =
      { content := some [], replies := some [],
        files := (st.getDraft channelId).files.map
          (fun fs => fs.drop maxAttachments) } := by
  refine ⟨?_, rfl, rfl, ?_⟩
  · simp [Store.sendDraft, Store.sendPayload, hc, hf]
  · simp only [Store.popDraft, getDraft_setDraftObj_self, mergeDraft,
      Option.getD_some]

/-- Witness for C1's amended claim at the replies-only store. -/
theorem sendDraft_empty_pop_spec_witness :
    repliesOnlyStore.sendDraft failTransport 128 "c" "k" none =
      ((repliesOnlyStore.popDraft 128 "c").1, {}, .noop) ∧
    ((repliesOnlyStore.popDraft 128 "c").1).outbox = repliesOnlyStore.outbox ∧
    ((repliesOnlyStore.popDraft 128 "c").1).fileCache = repliesOnlyStore.fileCache ∧
    ((repliesOnlyStore.popDraft 128 "c").1).getDraft "c" =
      { content := some [], replies := some [],
        files := (repliesOnlyStore.getDraft "c").files.map
          (fun fs => fs.drop 128) } :=
  sendDraft_empty_pop_spec repliesOnlyStore failTransport 128 "c" "k"
    (by decide) (by decide)

/-- The attachment id a cached file contributes under transport `tr`: the
memoized `autumnId` when present, otherwise the id the upload endpoint
answers for its raw file; `none` when the entry is missing or the upload
fails. -/
def resolveFile (tr : Transport) (st : Store) (f : String) : Option String :=
  match st.getFile f with
  | none => none
  | some e =>
    match e.autumnId with
    | some a => some a
    | none => (tr.upload e.file).respId

/-- The memoized server-side id on a cached file, if any. -/
def memoizedId (st : Store) (f : String) : Option String :=
  (st.getFile f).bind FileEntry.autumnId

theorem modifyFile_drafts (st : Store) (f : String) (k : FileEntry → FileEntry) :
    (st.modifyFile f k).drafts = st.drafts := rfl

theorem modifyFile_outbox (st : Store) (f : String) (k : FileEntry → FileEntry) :
    (st.modifyFile f k).outbox = st.outbox := rfl

theorem modifyFile_textSelection (st : Store) (f : String)
    (k : FileEntry → FileEntry) :
    (st.modifyFile f k).textSelection = st.textSelection := rfl

theorem modifyFile_fileCache_ne (st : Store) (f : String)
    (k : FileEntry → FileEntry) (g : String) (h : g ≠ f) :
    (st.modifyFile f k).fileCache g = st.fileCache g := by
  simp [Store.modifyFile, mapSet, h]

theorem modifyFile_fileCache_self (st : Store) (f : String)
    (k : FileEntry → FileEntry) :
    (st.modifyFile f k).fileCache f = (st.fileCache f).map k := by
  simp [Store.modifyFile, mapSet]

theorem resolveFile_eq_of (tr : Transport) (st1 st2 : Store) (f : String)
    (h : st1.fileCache f = st2.fileCache f) :
    resolveFile tr st1 f = resolveFile tr st2 f := by
  simp [resolveFile, Store.getFile, h]

theorem memoizedId_eq_of (st1 st2 : Store) (f : String)
    (h : st1.fileCache f = st2.fileCache f) :
    memoizedId st1 f = memoizedId st2 f := by
  simp [memoizedId, Store.getFile, h]

theorem resolveFile_isSome_getFile (tr : Transport) (st : Store) (f : String)
    (h : (resolveFile tr st f).isSome = true) : (st.getFile f).isSome = true := by
  cases hc : st.getFile f with
  | none => rw [resolveFile, hc] at h; simp at h
  | some e => rfl

/-- The upload loop, when every file in the list resolves (memoized or
uploadable), finishes without an exception; it only ever uploads files of
the list, leaves `drafts`, `outbox` and the selection alone, touches no
cache entry outside the list, and never removes a cache entry. -/
theorem uploadFiles_ok (tr : Transport) (fs : List String) :
    ∀ (st : Store) (acc tra : List String),
      (∀ f ∈ fs, (resolveFile tr st f).isSome = true) →
      ∃ st' acc' up,
        uploadFiles tr fs st acc tra = (st', acc ++ acc', tra ++ up, none) ∧
        (∀ g ∈ up, g ∈ fs) ∧
        st'.drafts = st.drafts ∧ st'.outbox = st.outbox ∧
        st'.textSelection = st.textSelection ∧
        (∀ g, g ∉ fs → st'.fileCache g = st.fileCache g) ∧
        (∀ g, (st.fileCache g).isSome = true → (st'.fileCache g).isSome = true) := by
  induction fs with
  | nil =>
    intro st acc tra _
    exact ⟨st, [], [], by simp [uploadFiles], by simp, rfl, rfl, rfl,
      fun _ _ => rfl, fun _ h => h⟩
  | cons f rest ih =>
    intro st acc tra hready
    have hf := hready f (List.mem_cons_self f rest)
    cases hc : st.getFile f with
    | none => rw [resolveFile, hc] at hf; simp at hf
    | some e =>
      cases ha : e.autumnId with
      | some a =>
        obtain ⟨st', acc', up, heq, hup, hd, ho, hts, hcc, hcs⟩ :=
          ih st (acc ++ [a]) tra (fun g hg => hready g (List.mem_cons_of_mem f hg))
        refine ⟨st', a :: acc', up, ?_, fun g hg => List.mem_cons_of_mem f (hup g hg),
          hd, ho, hts, fun g hg => hcc g (fun h => hg (List.mem_cons_of_mem f h)),
          hcs⟩
        have hstep : uploadFiles tr (f :: rest) st acc tra =
            uploadFiles tr rest st (acc ++ [a]) tra := by
          simp only [uploadFiles, hc, ha]
        rw [hstep, heq]
        simp
      | none =>
        simp only [resolveFile, hc, ha] at hf
        cases hu : tr.upload e.file with
        | failure => rw [hu] at hf; simp [UploadOutcome.respId] at hf
        | success rid =>
          set st2 := (st.modifyFile f (fun e => { e with uploadProgress := 1 })).modifyFile
            f (fun e => { e with autumnId := some rid }) with hst2
          have hc2 : ∀ g, g ≠ f → st2.fileCache g = st.fileCache g := by
            intro g hg
            rw [hst2, modifyFile_fileCache_ne _ _ _ _ hg,
              modifyFile_fileCache_ne _ _ _ _ hg]
          have hcf : st2.fileCache f =
              some { e with uploadProgress := 1, autumnId := some rid } := by
            rw [hst2, modifyFile_fileCache_self, modifyFile_fileCache_self]
            rw [show st.fileCache f = some e from hc]
            rfl
          have hready2 : ∀ g ∈ rest, (resolveFile tr st2 g).isSome = true := by
            intro g hg
            by_cases hgf : g = f
            · subst hgf
              rw [resolveFile, Store.getFile, hcf]
              rfl
            · rw [resolveFile_eq_of tr st2 st g (hc2 g hgf)]
              exact hready g (List.mem_cons_of_mem f hg)
          obtain ⟨st', acc', up, heq, hup, hd, ho, hts, hcc, hcs⟩ :=
            ih st2 (acc ++ [rid]) (tra ++ [f]) hready2
          refine ⟨st', rid :: acc', f :: up, ?_,
            ?_, by rw [hd]; rfl, by rw [ho]; rfl, by rw [hts]; rfl, ?_, ?_⟩
          · have hstep : uploadFiles tr (f :: rest) st acc tra =
                uploadFiles tr rest st2 (acc ++ [rid]) (tra ++ [f]) := by
              simp only [uploadFiles, hc, ha, hu, hst2]
            rw [hstep, heq]
            simp
          · intro g hg
            rcases List.mem_cons.mp hg with h | h
            · exact h ▸ List.mem_cons_self f rest
            · exact List.mem_cons_of_mem f (hup g h)
          · intro g hg
            have hgf : g ≠ f := fun h => hg (h ▸ List.mem_cons_self f rest)
            have hgr : g ∉ rest := fun h => hg (List.mem_cons_of_mem f h)
            rw [hcc g hgr, hc2 g hgf]
          · intro g hg
            apply hcs
            by_cases hgf : g = f
            · subst hgf
              rw [hcf]
              rfl
            · rw [hc2 g hgf]
              exact hg

/-- Precise characterization of the upload loop over a duplicate-free file
list on which every file resolves: the accumulated attachment ids are the
in-order resolved ids, the uploads issued are exactly the files without a
memoized id, and afterwards every file's cache entry memoizes its resolved
id. -/
theorem uploadFiles_ok_nodup (tr : Transport) (fs : List String) :
    ∀ (st : Store) (acc tra : List String),
      fs.Nodup →
      (∀ f ∈ fs, (resolveFile tr st f).isSome = true) →
      ∃ st',
        uploadFiles tr fs st acc tra =
          (st', acc ++ fs.map (fun f => (resolveFile tr st f).getD ""),
           tra ++ fs.filter (fun f => (memoizedId st f).isNone), none) ∧
        (∀ f ∈ fs, memoizedId st' f = resolveFile tr st f) ∧
        st'.drafts = st.drafts ∧ st'.outbox = st.outbox ∧
        st'.textSelection = st.textSelection ∧
        (∀ g, g ∉ fs → st'.fileCache g = st.fileCache g) ∧
        (∀ g, (st.fileCache g).isSome = true → (st'.fileCache g).isSome = true) := by
  induction fs with
  | nil =>
    intro st acc tra _ _
    exact ⟨st, by simp [uploadFiles], by simp, rfl, rfl, rfl, fun _ _ => rfl,
      fun _ h => h⟩
  | cons f rest ih =>
    intro st acc tra hnd hready
    have hf := hready f (List.mem_cons_self f rest)
    have hfr : f ∉ rest := (List.nodup_cons.mp hnd).1
    have hndr : rest.Nodup := (List.nodup_cons.mp hnd).2
    cases hc : st.getFile f with
    | none => simp only [resolveFile, hc] at hf; simp at hf
    | some e =>
      cases ha : e.autumnId with
      | some a =>
        obtain ⟨st', heq, hmem, hd, ho, hts, hcc, hcs⟩ :=
          ih st (acc ++ [a]) tra hndr
            (fun g hg => hready g (List.mem_cons_of_mem f hg))
        have hres : resolveFile tr st f = some a := by
          simp [resolveFile, hc, ha]
        have hmemf : memoizedId st f = some a := by
          simp [memoizedId, hc, ha]
        refine ⟨st', ?_, ?_, hd, ho, hts,
          fun g hg => hcc g (fun h => hg (List.mem_cons_of_mem f h)), hcs⟩
        · have hstep : uploadFiles tr (f :: rest) st acc tra =
              uploadFiles tr rest st (acc ++ [a]) tra := by
            simp only [uploadFiles, hc, ha]
          rw [hstep, heq]
          simp [hres, hmemf]
        · intro g hg
          rcases List.mem_cons.mp hg with h | h
          · subst h
            rw [memoizedId_eq_of st' st g (hcc g hfr), hmemf, hres]
          · exact hmem g h
      | none =>
        simp only [resolveFile, hc, ha] at hf
        cases hu : tr.upload e.file with
        | failure => rw [hu] at hf; simp [UploadOutcome.respId] at hf
        | success rid =>
          set st2 := (st.modifyFile f
              (fun e => { e with uploadProgress := 1 })).modifyFile
            f (fun e => { e with autumnId := some rid }) with hst2
          have hc2 : ∀ g, g ≠ f → st2.fileCache g = st.fileCache g := by
            intro g hg
            rw [hst2, modifyFile_fileCache_ne _ _ _ _ hg,
              modifyFile_fileCache_ne _ _ _ _ hg]
          have hcf : st2.fileCache f =
              some { e with uploadProgress := 1, autumnId := some rid } := by
            rw [hst2, modifyFile_fileCache_self, modifyFile_fileCache_self]
            rw [show st.fileCache f = some e from hc]
            rfl
          have hready2 : ∀ g ∈ rest, (resolveFile tr st2 g).isSome = true := by
            intro g hg
            rw [resolveFile_eq_of tr st2 st g (hc2 g (fun h => hfr (h ▸ hg)))]
            exact hready g (List.mem_cons_of_mem f hg)
          obtain ⟨st', heq, hmem, hd, ho, hts, hcc, hcs⟩ :=
            ih st2 (acc ++ [rid]) (tra ++ [f]) hndr hready2
          have hres : resolveFile tr st f = some rid := by
            simp [resolveFile, hc, ha, hu, UploadOutcome.respId]
          have hmemf : memoizedId st f = none := by
            simp [memoizedId, hc, ha]
          have hres2 : ∀ g ∈ rest, resolveFile tr st2 g = resolveFile tr st g := by
            intro g hg
            exact resolveFile_eq_of tr st2 st g (hc2 g (fun h => hfr (h ▸ hg)))
          have hmem2 : ∀ g ∈ rest, memoizedId st2 g = memoizedId st g := by
            intro g hg
            exact memoizedId_eq_of st2 st g (hc2 g (fun h => hfr (h ▸ hg)))
          refine ⟨st', ?_, ?_, by rw [hd]; rfl, by rw [ho]; rfl,
            by rw [hts]; rfl, ?_, ?_⟩
          · have hstep : uploadFiles tr (f :: rest) st acc tra =
                uploadFiles tr rest st2 (acc ++ [rid]) (tra ++ [f]) := by
              simp only [uploadFiles, hc, ha, hu, hst2]
            rw [hstep, heq]
            have hmapeq : rest.map (fun g => (resolveFile tr st2 g).getD "") =
                rest.map (fun g => (resolveFile tr st g).getD "") :=
              List.map_congr_left (fun g hg => by rw [hres2 g hg])
            have hfiltereq :
                rest.filter (fun g => (memoizedId st2 g).isNone) =
                  rest.filter (fun g => (memoizedId st g).isNone) :=
              List.filter_congr (fun g hg => by rw [hmem2 g hg])
            rw [hmapeq, hfiltereq]
            simp [hres, hmemf]
          · intro g hg
            rcases List.mem_cons.mp hg with h | h
            · subst h
              rw [memoizedId_eq_of st' st2 g (hcc g hfr), hres]
              rw [memoizedId, Store.getFile, hcf]
              rfl
            · rw [hmem g h, hres2 g h]
          · intro g hg
            have hgf : g ≠ f := fun h => hg (h ▸ List.mem_cons_self f rest)
            have hgr : g ∉ rest := fun h => hg (List.mem_cons_of_mem f h)
            rw [hcc g hgr, hc2 g hgf]
          · intro g hg
            apply hcs
            by_cases hgf : g = f
            · subst hgf
              rw [hcf]
              rfl
            · rw [hc2 g hgf]
              exact hg

/-- The upload loop over `l1 ++ l2` first runs over `l1`; when that part
raises no exception the loop continues over `l2` from where it stopped. -/
theorem uploadFiles_append_ok (tr : Transport) (l1 l2 : List String) :
    ∀ (st st1 : Store) (acc tra acc1 tra1 : List String),
      uploadFiles tr l1 st acc tra = (st1, acc1, tra1, none) →
      uploadFiles tr (l1 ++ l2) st acc tra = uploadFiles tr l2 st1 acc1 tra1 := by
  induction l1 with
  | nil =>
    intro st st1 acc tra acc1 tra1 h
    simp only [uploadFiles, Prod.mk.injEq] at h
    obtain ⟨h1, h2, h3, -⟩ := h
    rw [List.nil_append, h1, h2, h3]
  | cons f rest ih =>
    intro st st1 acc tra acc1 tra1 h
    cases hc : st.getFile f with
    | none => simp [uploadFiles, hc] at h
    | some e =>
      cases ha : e.autumnId with
      | some a =>
        simp only [uploadFiles, hc, ha] at h
        simp only [List.cons_append, uploadFiles, hc, ha]
        exact ih (st) st1 (acc ++ [a]) tra acc1 tra1 h
      | none =>
        cases hu : tr.upload e.file with
        | failure => simp [uploadFiles, hc, ha, hu] at h
        | success rid =>
          simp only [uploadFiles, hc, ha, hu] at h
          simp only [List.cons_append, uploadFiles, hc, ha, hu]
          exact ih _ st1 (acc ++ [rid]) (tra ++ [f]) acc1 tra1 h

/-- When the loop reaches a cached file without a memoized id whose upload
does not succeed, after a clean prefix, it throws the upload error there:
only prefix files (and the failing one) were uploaded, nothing after it is
attempted, and drafts and outbox are untouched. -/
theorem uploadFiles_fail_at (tr : Transport) (pre post : List String)
    (bad : String) (e : FileEntry) (st : Store) (acc tra : List String)
    (hpre : ∀ f ∈ pre, (resolveFile tr st f).isSome = true)
    (hbadpre : bad ∉ pre)
    (hbadc : st.getFile bad = some e)
    (hbadm : e.autumnId = none)
    (hbadu : tr.upload e.file = .failure) :
    ∃ st' acc' up,
      uploadFiles tr (pre ++ bad :: post) st acc tra =
        (st', acc ++ acc', tra ++ (up ++ [bad]), some .uploadError) ∧
      (∀ g ∈ up, g ∈ pre) ∧
      st'.drafts = st.drafts ∧ st'.outbox = st.outbox := by
  obtain ⟨st1, acc', up, heq, hup, hd, ho, hts, hcc, hcs⟩ :=
    uploadFiles_ok tr pre st acc tra hpre
  rw [uploadFiles_append_ok tr pre (bad :: post) st st1 acc tra _ _ heq]
  have hc1 : st1.getFile bad = some e := by
    rw [Store.getFile, hcc bad hbadpre]
    exact hbadc
  refine ⟨st1.modifyFile bad (fun e => { e with uploadProgress := 1 }), acc', up,
    ?_, hup, by rw [modifyFile_drafts, hd], by rw [modifyFile_outbox, ho]⟩
  simp only [uploadFiles, hc1, hbadm, hbadu]
  simp

/-- C2: when, after a clean prefix of attachments, an upload completes
without success, `sendDraft` attempts no further attachments (everything
uploaded lies in the prefix or is the failing file, which is last), issues
no `sendMessage` call, surfaces the upload error to the caller, and the
outbox entry created for the attempt remains present with status `sending`
— it is never transitioned to `failed` on this path. -/
theorem sendDraft_upload_failure_spec (st st0 : Store) (tr : Transport)
    (maxAttachments : Nat) (channelId idempotencyKey : String)
    (existingDraft : Option DraftData) (draft : DraftData)
    (pre post : List String) (bad : String) (e : FileEntry)
    (hp : st.sendPayload maxAttachments channelId existingDraft = (st0, draft))
    (hfiles : draft.files = some (pre ++ bad :: post))
    (hpre : ∀ f ∈ pre, (resolveFile tr st0 f).isSome = true)
    (hbadpre : bad ∉ pre)
    (hbadc : st0.getFile bad = some e)
    (hbadm : e.autumnId = none)
    (hbadu : tr.upload e.file = .failure) :
    ∃ st' up,
      st.sendDraft tr maxAttachments channelId idempotencyKey existingDraft =
        (st', { uploads := up ++ [bad], sends := [] }, .uploadError) ∧
      (∀ g ∈ up, g ∈ pre) ∧
      st'.getPendingMessages channelId =
        st.getPendingMessages channelId ++
          [{ idempotencyKey := idempotencyKey, status := .sending,
             content := draft.content, replies := draft.replies,
             files := draft.files }] ∧
      (∀ channelId', channelId' ≠ channelId →
        st'.outbox channelId' = st.outbox channelId') := by
  have h0 : st0.outbox = st.outbox := by
    have h := sendPayload_outbox st maxAttachments channelId existingDraft
    rw [hp] at h
    exact h
  have hpend0 : st0.getPendingMessages channelId = st.getPendingMessages channelId := by
    rw [Store.getPendingMessages, Store.getPendingMessages, h0]
  have hcond :
      (!strTruthy draft.content && !listTruthy (some (pre ++ bad :: post))) =
        false := by
    cases pre <;> simp [listTruthy]
  set entry : UnsentMessage :=
    { idempotencyKey := idempotencyKey, status := .sending,
      content := draft.content, replies := draft.replies,
      files := some (pre ++ bad :: post) } with hentry
  set st1 : Store :=
    { st0 with
      outbox := mapSet st0.outbox channelId
        (some (st0.getPendingMessages channelId ++ [entry])) } with hst1
  have hcache1 : st1.fileCache = st0.fileCache := by rw [hst1]
  obtain ⟨st', acc', up, heq, hup, hd, ho⟩ :=
    uploadFiles_fail_at tr pre post bad e st1 [] []
      (fun f hf => by
        rw [resolveFile_eq_of tr st1 st0 f (by rw [hcache1])]
        exact hpre f hf)
      hbadpre (by rw [Store.getFile, hcache1]; exact hbadc) hbadm hbadu
  refine ⟨st', up, ?_, hup, ?_, ?_⟩
  · simp only [Store.sendDraft, hp, hfiles, hcond, Bool.false_eq_true, if_false]
    rw [← hentry, ← hst1, heq]
    simp
  · rw [hfiles, Store.getPendingMessages, ho, hst1]
    simp only [mapSet_self, Option.getD_some]
    rw [hpend0, hentry]
  · intro channelId' hc'
    rw [ho, hst1]
    show mapSet st0.outbox channelId _ channelId' = st.outbox channelId'
    rw [mapSet_ne _ _ _ _ hc', h0]

/-- A cache with one uploaded file (`f1`, memoized id `a1`) and two fresh
ones (`f2`, `f3`). -/
def mixedCacheStore : Store :=
  { drafts := fun _ => none,
    outbox := fun _ => none,
    fileCache := fun k =>
      if k = "f1" then some { file := "F1", autumnId := some "a1" }
      else if k = "f2" then some { file := "F2" }
      else if k = "f3" then some { file := "F3" } else none,
    textSelection := none }

/-- A transport whose upload endpoint only accepts the raw file `F1`. -/
def acceptOnlyF1 : Transport :=
  { upload := fun h => if h = "F1" then .success "s1" else .failure,
    sendOk := true }

/-- Witness for C2 at a concrete send: files `[f1, f2, f3]`, where `f1` is
memoized and the upload of `f2` fails. -/
theorem sendDraft_upload_failure_spec_witness :
    ∃ st' up,
      mixedCacheStore.sendDraft acceptOnlyF1 128 "c" "k"
          (some { files := some ["f1", "f2", "f3"] }) =
        (st', { uploads := up ++ ["f2"], sends := [] }, .uploadError) ∧
      (∀ g ∈ up, g ∈ ["f1"]) ∧
      st'.getPendingMessages "c" =
        mixedCacheStore.getPendingMessages "c" ++
          [{ idempotencyKey := "k", status := .sending, content := none,
             replies := none, files := some ["f1", "f2", "f3"] }] ∧
      (∀ channelId', channelId' ≠ "c" →
        st'.outbox channelId' = mixedCacheStore.outbox channelId') :=
  sendDraft_upload_failure_spec mixedCacheStore mixedCacheStore acceptOnlyF1 128
    "c" "k" (some { files := some ["f1", "f2", "f3"] })
    { files := some ["f1", "f2", "f3"] } ["f1"] ["f3"] "f2" { file := "F2" }
    rfl rfl (by decide) (by decide) (by decide) rfl (by decide)

/-- C3: when the payload is sendable, every attachment resolves, and the
transport send call fails, the outbox entry appended for this attempt is
marked `failed` in place with its payload preserved, every other outbox
entry (same channel and other channels) is unchanged, and no referenced
attachment cache entry is released. -/
theorem sendDraft_send_failure_spec (st st0 : Store) (tr : Transport)
    (maxAttachments : Nat) (channelId idempotencyKey : String)
    (existingDraft : Option DraftData) (draft : DraftData)
    (hp : st.sendPayload maxAttachments channelId existingDraft = (st0, draft))
    (hpayload : strTruthy draft.content = true ∨ listTruthy draft.files = true)
    (hready : ∀ f ∈ draft.files.getD [],
      (resolveFile tr st0 f).isSome = true)
    (hsend : tr.sendOk = false)
    (hkeys : ∀ m ∈ st.getPendingMessages channelId,
      m.idempotencyKey ≠ idempotencyKey) :
    ∃ st' trace,
      st.sendDraft tr maxAttachments channelId idempotencyKey existingDraft =
        (st', trace, .sendFailed) ∧
      st'.getPendingMessages channelId =
        st.getPendingMessages channelId ++
          [{ idempotencyKey := idempotencyKey, status := .failed,
             content := draft.content, replies := draft.replies,
             files := draft.files }] ∧
      (∀ channelId', channelId' ≠ channelId →
        st'.outbox channelId' = st.outbox channelId') ∧
      (∀ f ∈ draft.files.getD [], (st'.getFile f).isSome = true) := by
  have h0 : st0.outbox = st.outbox := by
    have h := sendPayload_outbox st maxAttachments channelId existingDraft
    rw [hp] at h
    exact h
  have hpend0 : st0.getPendingMessages channelId = st.getPendingMessages channelId := by
    rw [Store.getPendingMessages, Store.getPendingMessages, h0]
  have hcond : (!strTruthy draft.content && !listTruthy draft.files) = false := by
    rcases hpayload with h | h <;> simp [h]
  set entry : UnsentMessage :=
    { idempotencyKey := idempotencyKey, status := .sending,
      content := draft.content, replies := draft.replies,
      files := draft.files } with hentry
  set st1 : Store :=
    { st0 with
      outbox := mapSet st0.outbox channelId
        (some (st0.getPendingMessages channelId ++ [entry])) } with hst1
  have hcache1 : st1.fileCache = st0.fileCache := by rw [hst1]
  -- characterize the loop output for both shapes of `draft.files`
  obtain ⟨st2, acc2, up2, hloop, ho2, hcs2⟩ :
      ∃ st2 acc2 up2,
        (match draft.files with
          | some fs => uploadFiles tr fs st1 [] []
          | none => (st1, [], [], none)) = (st2, acc2, up2, none) ∧
        st2.outbox = st1.outbox ∧
        (∀ f ∈ draft.files.getD [],
          ((st2.fileCache f).isSome = true)) := by
    cases hf : draft.files with
    | none => exact ⟨st1, [], [], rfl, rfl, by simp⟩
    | some fs =>
      have hready1 : ∀ f ∈ fs, (resolveFile tr st1 f).isSome = true := by
        intro f hf'
        rw [resolveFile_eq_of tr st1 st0 f (by rw [hcache1])]
        exact hready f (by rw [hf]; simpa using hf')
      obtain ⟨st2, acc2, up2, heq, hup, hd, ho, hts, hcc, hcs⟩ :=
        uploadFiles_ok tr fs st1 [] [] hready1
      refine ⟨st2, acc2, up2, by simpa using heq, ho, ?_⟩
      intro f hf'
      simp only [Option.getD_some] at hf'
      apply hcs
      show (st1.fileCache f).isSome = true
      rw [hcache1]
      exact resolveFile_isSome_getFile tr st0 f
        (hready f (by rw [hf]; simpa using hf'))
  have hpend2 : st2.getPendingMessages channelId =
      st.getPendingMessages channelId ++ [entry] := by
    rw [Store.getPendingMessages, ho2, hst1]
    simp [mapSet, hpend0]
  have hmapold : (st.getPendingMessages channelId).map
      (fun e => if e.idempotencyKey = idempotencyKey then
        { e with status := Status.failed } else e) =
      st.getPendingMessages channelId := by
    have h := List.map_congr_left (l := st.getPendingMessages channelId)
      (f := fun e : UnsentMessage => if e.idempotencyKey = idempotencyKey then
        { e with status := Status.failed } else e)
      (g := fun e => e) (fun m hm => by simp [hkeys m hm])
    simpa using h
  have hmain : st.sendDraft tr maxAttachments channelId idempotencyKey
      existingDraft =
      ({ st2 with
          outbox := mapSet st2.outbox channelId
            (some ((st2.getPendingMessages channelId).map
              (fun e => if e.idempotencyKey = idempotencyKey then
                { e with status := Status.failed } else e))) },
       { uploads := up2,
         sends := [({ content := draft.content,
                      replies := draft.replies,
                      attachments := if acc2.isEmpty then none else some acc2 },
                    idempotencyKey)] },
       SendResult.sendFailed) := by
    simp only [Store.sendDraft, hp, hcond, Bool.false_eq_true, if_false]
    rw [← hentry, ← hst1, hloop]
    simp [hsend]
  refine ⟨_, _, hmain, ?_, ?_, ?_⟩
  · rw [Store.getPendingMessages]
    show ((mapSet st2.outbox channelId _) channelId).getD [] = _
    rw [mapSet_self, Option.getD_some, hpend2]
    rw [List.map_append, hmapold]
    simp [hentry]
  · intro channelId' hc'
    show mapSet st2.outbox channelId _ channelId' = st.outbox channelId'
    rw [mapSet_ne _ _ _ _ hc', ho2, hst1]
    show mapSet st0.outbox channelId _ channelId' = st.outbox channelId'
    rw [mapSet_ne _ _ _ _ hc', h0]
  · intro f hf'
    show ((st2.fileCache f).isSome = true)
    exact hcs2 f hf'

/-- A transport that accepts every upload and fails the send call. -/
def uploadOkSendFail : Transport :=
  { upload := fun _ => .success "sX", sendOk := false }

/-- Witness for C3 at a concrete send: content plus files `[f1, f2]`
(one memoized, one uploaded), transport send fails. -/
theorem sendDraft_send_failure_spec_witness :
    ∃ st' trace,
      mixedCacheStore.sendDraft uploadOkSendFail 128 "c" "k"
          (some { content := some "hi".toList, files := some ["f1", "f2"] }) =
        (st', trace, .sendFailed) ∧
      st'.getPendingMessages "c" =
        mixedCacheStore.getPendingMessages "c" ++
          [{ idempotencyKey := "k", status := .failed,
             content := some "hi".toList, replies := none,
             files := some ["f1", "f2"] }] ∧
      (∀ channelId', channelId' ≠ "c" →
        st'.outbox channelId' = mixedCacheStore.outbox channelId') ∧
      (∀ f ∈ (some ["f1", "f2"] : Option (List String)).getD [],
        (st'.getFile f).isSome = true) :=
  sendDraft_send_failure_spec mixedCacheStore mixedCacheStore uploadOkSendFail
    128 "c" "k" (some { content := some "hi".toList, files := some ["f1", "f2"] })
    { content := some "hi".toList, files := some ["f1", "f2"] }
    rfl (Or.inl (by decide)) (by decide) rfl (by decide)

theorem resolveFile_of_memoized (tr : Transport) (st : Store) (f a : String)
    (h : memoizedId st f = some a) : resolveFile tr st f = some a := by
  rw [memoizedId] at h
  cases hc : st.getFile f with
  | none => rw [hc] at h; simp at h
  | some e =>
    rw [hc] at h
    simp only [Option.some_bind] at h
    simp [resolveFile, hc, h]

/-- One complete failed `sendDraft` run over a duplicate-free, fully
resolving, non-empty file list: the trace and the final outbox and cache are
characterized exactly. -/
theorem sendDraft_run_nodup (st st0 : Store) (tr : Transport) (maxA : Nat)
    (ch key : String) (ed : Option DraftData) (draft : DraftData)
    (fs : List String)
    (hp : st.sendPayload maxA ch ed = (st0, draft))
    (hfiles : draft.files = some fs)
    (hne : fs ≠ [])
    (hnd : fs.Nodup)
    (hready : ∀ f ∈ fs, (resolveFile tr st0 f).isSome = true)
    (hsend : tr.sendOk = false) :
    ∃ st',
      st.sendDraft tr maxA ch key ed =
        (st',
         { uploads := fs.filter (fun f => (memoizedId st0 f).isNone),
           sends := [({ content := draft.content,
                        replies := draft.replies,
                        attachments :=
                          some (fs.map (fun f => (resolveFile tr st0 f).getD "")) },
                      key)] },
         .sendFailed) ∧
      (∀ f ∈ fs, memoizedId st' f = resolveFile tr st0 f) ∧
      st'.outbox ch =
        some ((st.getPendingMessages ch ++
          [({ idempotencyKey := key, status := .sending, content := draft.content,
              replies := draft.replies, files := some fs } : UnsentMessage)]).map
          (fun e : UnsentMessage => if e.idempotencyKey = key then
            { e with status := Status.failed } else e)) ∧
      (∀ ch', ch' ≠ ch → st'.outbox ch' = st.outbox ch') := by
  have h0 : st0.outbox = st.outbox := by
    have h := sendPayload_outbox st maxA ch ed
    rw [hp] at h
    exact h
  have hpend0 : st0.getPendingMessages ch = st.getPendingMessages ch := by
    rw [Store.getPendingMessages, Store.getPendingMessages, h0]
  have hcond : (!strTruthy draft.content && !listTruthy (some fs)) = false := by
    cases fs with
    | nil => exact absurd rfl hne
    | cons a l => simp [listTruthy]
  set entry : UnsentMessage :=
    { idempotencyKey := key, status := .sending, content := draft.content,
      replies := draft.replies, files := some fs } with hentry
  set st1 : Store :=
    { st0 with
      outbox := mapSet st0.outbox ch
        (some (st0.getPendingMessages ch ++ [entry])) } with hst1
  have hcache1 : st1.fileCache = st0.fileCache := by rw [hst1]
  have hready1 : ∀ f ∈ fs, (resolveFile tr st1 f).isSome = true := by
    intro f hf
    rw [resolveFile_eq_of tr st1 st0 f (by rw [hcache1])]
    exact hready f hf
  obtain ⟨st2, heq, hmem, hd, ho, hts, hcc, hcs⟩ :=
    uploadFiles_ok_nodup tr fs st1 [] [] hnd hready1
  have hres1 : ∀ f ∈ fs, resolveFile tr st1 f = resolveFile tr st0 f :=
    fun f _ => resolveFile_eq_of tr st1 st0 f (by rw [hcache1])
  have hmem1 : ∀ f ∈ fs, memoizedId st1 f = memoizedId st0 f :=
    fun f _ => memoizedId_eq_of st1 st0 f (by rw [hcache1])
  have hmapeq : fs.map (fun f => (resolveFile tr st1 f).getD "") =
      fs.map (fun f => (resolveFile tr st0 f).getD "") :=
    List.map_congr_left (fun f hf => by rw [hres1 f hf])
  have hfiltereq : fs.filter (fun f => (memoizedId st1 f).isNone) =
      fs.filter (fun f => (memoizedId st0 f).isNone) :=
    List.filter_congr (fun f hf => by rw [hmem1 f hf])
  have hmape : (fs.map (fun f => (resolveFile tr st0 f).getD "")).isEmpty =
      false := by
    cases fs with
    | nil => exact absurd rfl hne
    | cons a l => rfl
  have hmain : st.sendDraft tr maxA ch key ed =
      ({ st2 with
          outbox := mapSet st2.outbox ch
            (some ((st2.getPendingMessages ch).map
              (fun e => if e.idempotencyKey = key then
                { e with status := Status.failed } else e))) },
       { uploads := fs.filter (fun f => (memoizedId st0 f).isNone),
         sends := [({ content := draft.content,
                      replies := draft.replies,
                      attachments :=
                        some (fs.map (fun f => (resolveFile tr st0 f).getD "")) },
                    key)] },
       SendResult.sendFailed) := by
    simp only [Store.sendDraft, hp, hfiles, hcond, Bool.false_eq_true, if_false]
    rw [← hentry, ← hst1, heq]
    simp [hsend, hmapeq, hfiltereq, hmape]
  have hpend2 : st2.getPendingMessages ch =
      st.getPendingMessages ch ++ [entry] := by
    rw [Store.getPendingMessages, ho, hst1]
    simp [mapSet, hpend0]
  refine ⟨_, hmain, ?_, ?_, ?_⟩
  · intro f hf
    have h2 := hmem f hf
    rw [hres1 f hf] at h2
    simpa [memoizedId, Store.getFile] using h2
  · show mapSet st2.outbox ch _ ch = _
    rw [mapSet_self, hpend2, hentry]
  · intro ch' hc'
    show mapSet st2.outbox ch _ ch' = st.outbox ch'
    rw [mapSet_ne _ _ _ _ hc', ho, hst1]
    show mapSet st0.outbox ch _ ch' = st.outbox ch'
    rw [mapSet_ne _ _ _ _ hc', h0]

/-- C4: attachments are processed sequentially in file-array order — the
send payload's attachment ids are the in-order resolved ids, where a
memoized file contributes its memoized id without being uploaded and the
uploads issued are exactly the files without a memoized id; each uploaded
id is memoized on the cache entry; and a subsequent `retrySend` of the same
payload issues no upload at all while sending the same attachment ids. -/
theorem sendDraft_memoization_spec (st st0 : Store) (tr : Transport)
    (maxAttachments : Nat) (channelId idempotencyKey newKey : String)
    (existingDraft : Option DraftData) (draft : DraftData) (fs : List String)
    (hp : st.sendPayload maxAttachments channelId existingDraft = (st0, draft))
    (hfiles : draft.files = some fs)
    (hne : fs ≠ [])
    (hnd : fs.Nodup)
    (hready : ∀ f ∈ fs, (resolveFile tr st0 f).isSome = true)
    (hsend : tr.sendOk = false)
    (hkeys : ∀ m ∈ st.getPendingMessages channelId,
      m.idempotencyKey ≠ idempotencyKey) :
    ∃ st' st'' trace2,
      st.sendDraft tr maxAttachments channelId idempotencyKey existingDraft =
        (st',
         { uploads := fs.filter (fun f => (memoizedId st0 f).isNone),
           sends := [({ content := draft.content,
                        replies := draft.replies,
                        attachments :=
                          some (fs.map (fun f => (resolveFile tr st0 f).getD "")) },
                      idempotencyKey)] },
         .sendFailed) ∧
      (∀ f ∈ fs, memoizedId st' f = resolveFile tr st0 f) ∧
      st'.retrySend tr maxAttachments channelId idempotencyKey newKey =
        some (st'', trace2, .sendFailed) ∧
      trace2.uploads = [] ∧
      trace2.sends = [({ content := draft.content,
                         replies := draft.replies,
                         attachments :=
                           some (fs.map (fun f => (resolveFile tr st0 f).getD "")) },
                       newKey)] := by
  obtain ⟨st3, hmain1, hmem1, hout1, hch1⟩ :=
    sendDraft_run_nodup st st0 tr maxAttachments channelId idempotencyKey
      existingDraft draft fs hp hfiles hne hnd hready hsend
  set failedEntry : UnsentMessage :=
    { idempotencyKey := idempotencyKey, status := .failed,
      content := draft.content, replies := draft.replies,
      files := some fs } with hfailed
  have hout1' : st3.outbox channelId =
      some (st.getPendingMessages channelId ++ [failedEntry]) := by
    rw [hout1, List.map_append]
    have hmapold : (st.getPendingMessages channelId).map
        (fun e : UnsentMessage => if e.idempotencyKey = idempotencyKey then
          { e with status := Status.failed } else e) =
        st.getPendingMessages channelId := by
      have h := List.map_congr_left (l := st.getPendingMessages channelId)
        (f := fun e : UnsentMessage => if e.idempotencyKey = idempotencyKey then
          { e with status := Status.failed } else e)
        (g := fun e => e) (fun m hm => by simp [hkeys m hm])
      simpa using h
    rw [hmapold]
    simp [hfailed]
  have hfind : (st.getPendingMessages channelId ++ [failedEntry]).find?
      (fun e => e.idempotencyKey = idempotencyKey) = some failedEntry := by
    rw [List.find?_append]
    have h1 : (st.getPendingMessages channelId).find?
        (fun e => e.idempotencyKey = idempotencyKey) = none :=
      List.find?_eq_none.mpr (fun x hx => by simp [hkeys x hx])
    rw [h1]
    simp [hfailed]
  set st4 : Store := st3.cancelSend channelId idempotencyKey with hst4
  have hcache4 : ∀ f, st4.fileCache f = st3.fileCache f := by
    intro f
    rw [hst4]
    rfl
  have hmem4 : ∀ f ∈ fs, memoizedId st4 f = resolveFile tr st0 f := by
    intro f hf
    rw [memoizedId_eq_of st4 st3 f (hcache4 f)]
    exact hmem1 f hf
  have hready4 : ∀ f ∈ fs, (resolveFile tr st4 f).isSome = true := by
    intro f hf
    obtain ⟨a, ha⟩ := Option.isSome_iff_exists.mp (hready f hf)
    rw [resolveFile_of_memoized tr st4 f a (by rw [hmem4 f hf, ha])]
    rfl
  have hfiles2 : (failedEntry.toDraftData).files = some fs := by
    rw [hfailed]
    rfl
  obtain ⟨st6, hmain2, hmem2, hout2, hch2⟩ :=
    sendDraft_run_nodup st4 st4 tr maxAttachments channelId newKey
      (some failedEntry.toDraftData) failedEntry.toDraftData fs rfl hfiles2
      hne hnd hready4 hsend
  have hretry : st3.retrySend tr maxAttachments channelId idempotencyKey newKey =
      some (st4.sendDraft tr maxAttachments channelId newKey
        (some failedEntry.toDraftData)) := by
    simp only [Store.retrySend, hout1', hfind, hst4]
    rfl
  have hcontent2 : failedEntry.toDraftData.content = draft.content := by
    rw [hfailed]; rfl
  have hreplies2 : failedEntry.toDraftData.replies = draft.replies := by
    rw [hfailed]; rfl
  have hres4 : ∀ f ∈ fs, resolveFile tr st4 f = resolveFile tr st0 f := by
    intro f hf
    obtain ⟨a, ha⟩ := Option.isSome_iff_exists.mp (hready f hf)
    rw [ha, resolveFile_of_memoized tr st4 f a (by rw [hmem4 f hf, ha])]
  refine ⟨st3, st6,
    { uploads := fs.filter (fun f => (memoizedId st4 f).isNone),
      sends := [(({ content := failedEntry.toDraftData.content,
                    replies := failedEntry.toDraftData.replies,
                    attachments :=
                      some (fs.map (fun f => (resolveFile tr st4 f).getD "")) } :
                    DataMessageSend),
                 newKey)] },
    hmain1, hmem1, ?_, ?_, ?_⟩
  · rw [hretry, hmain2]
  · show fs.filter (fun f => (memoizedId st4 f).isNone) = []
    refine List.filter_eq_nil_iff.mpr ?_
    intro f hf
    obtain ⟨a, ha⟩ := Option.isSome_iff_exists.mp (hready f hf)
    simp [hmem4 f hf, ha]
  · show [(({ content := failedEntry.toDraftData.content,
              replies := failedEntry.toDraftData.replies,
              attachments :=
                some (fs.map (fun f => (resolveFile tr st4 f).getD "")) } :
              DataMessageSend),
           newKey)] = _
    rw [hcontent2, hreplies2,
      List.map_congr_left (fun f hf => by rw [hres4 f hf])]

/-- Witness for C4 at a concrete send: files `[f1, f2]` with `f1` already
memoized (`a1`) and `f2` uploaded (`sX`); only `f2` is uploaded, both ids
are sent, and the retry uploads nothing while sending the same ids. -/
theorem sendDraft_memoization_spec_witness :
    ∃ st' st'' trace2,
      mixedCacheStore.sendDraft uploadOkSendFail 128 "c" "k"
          (some { files := some ["f1", "f2"] }) =
        (st',
         { uploads := ["f1", "f2"].filter
             (fun f => (memoizedId mixedCacheStore f).isNone),
           sends := [({ content := none,
                        replies := none,
                        attachments :=
                          some (["f1", "f2"].map (fun f =>
                            (resolveFile uploadOkSendFail mixedCacheStore f).getD "")) },
                      "k")] },
         .sendFailed) ∧
      (∀ f ∈ ["f1", "f2"],
        memoizedId st' f = resolveFile uploadOkSendFail mixedCacheStore f) ∧
      st'.retrySend uploadOkSendFail 128 "c" "k" "k2" =
        some (st'', trace2, .sendFailed) ∧
      trace2.uploads = [] ∧
      trace2.sends = [({ content := none,
                         replies := none,
                         attachments :=
                           some (["f1", "f2"].map (fun f =>
                             (resolveFile uploadOkSendFail mixedCacheStore f).getD "")) },
                       "k2")] :=
  sendDraft_memoization_spec mixedCacheStore mixedCacheStore uploadOkSendFail
    128 "c" "k" "k2" (some { files := some ["f1", "f2"] })
    { files := some ["f1", "f2"] } ["f1", "f2"]
    rfl rfl (by decide) (by decide) (by decide) rfl (by decide)

/-- What C10 asserts of each outbox entry `clean` outputs: status rewritten
to `"unsent"`, no files, and any kept replies value a well-formed non-empty
replies array. -/
def goodCleanMessage (m : CleanMessage) : Prop :=
  m.status = "unsent" ∧ m.files = none ∧
  ∀ rv, m.replies = some rv →
    ∃ x xs, rv = JVal.arr (x :: xs) ∧ ∀ y ∈ x :: xs, replyElemBad y = .ok false

theorem findBad_ok_false : ∀ l : List JVal, findBad l = .ok false →
    ∀ y ∈ l, replyElemBad y = .ok false := by
  intro l
  induction l with
  | nil =>
    intro _ y hy
    simp at hy
  | cons x xs ih =>
    intro h y hy
    rw [findBad] at h
    cases hx : replyElemBad x with
    | error e => rw [hx] at h; simp at h
    | ok b =>
      rw [hx] at h
      cases b with
      | true => simp at h
      | false =>
        rcases List.mem_cons.mp hy with h1 | h1
        · subst h1; exact hx
        · exact ih h y h1

theorem validateReplies_ok_true (v : JVal) (h : validateReplies v = .ok true) :
    ∃ x xs, v = JVal.arr (x :: xs) ∧
      ∀ y ∈ x :: xs, replyElemBad y = .ok false := by
  cases v with
  | arr xs =>
    cases xs with
    | nil => simp [validateReplies] at h
    | cons x rest =>
      rw [validateReplies] at h
      cases hb : findBad (x :: rest) with
      | error e => rw [hb] at h; simp at h
      | ok b =>
        rw [hb] at h
        cases b with
        | true => simp at h
        | false => exact ⟨x, rest, rfl, findBad_ok_false _ hb⟩
  | undefined => simp [validateReplies] at h
  | null => simp [validateReplies] at h
  | str s => simp [validateReplies] at h
  | bool b => simp [validateReplies] at h
  | num n => simp [validateReplies] at h
  | obj fields => simp [validateReplies] at h

theorem cleanMessage_good (v : JVal) (m : CleanMessage)
    (h : cleanMessage v = .ok (some m)) : goodCleanMessage m := by
  rw [cleanMessage] at h
  by_cases hty : v.typeof = "object"
  case neg => rw [if_neg hty] at h; simp at h
  rw [if_pos hty] at h
  cases hst : v.getProp "status" with
  | error e => simp [hst] at h
  | ok status =>
    simp only [hst] at h
    by_cases hinc : statusIncluded status = true
    case neg => rw [if_neg hinc] at h; simp at h
    rw [if_pos hinc] at h
    cases hik : v.getProp "idempotencyKey" with
    | error e => simp [hik] at h
    | ok ikey =>
      simp only [hik] at h
      cases ikey with
      | str ikeyStr =>
        cases hco : v.getProp "content" with
        | error e => simp [hco] at h
        | ok contentV =>
          simp only [hco] at h
          cases contentV with
          | str contentStr =>
            cases hrep : v.getProp "replies" with
            | error e => simp [hrep] at h
            | ok repliesV =>
              simp only [hrep] at h
              cases hval : validateReplies repliesV with
              | error e => simp [hval] at h
              | ok valid =>
                simp only [hval, Except.ok.injEq, Option.some.injEq] at h
                subst h
                refine ⟨rfl, rfl, ?_⟩
                intro rv hrv
                cases valid with
                | false => simp at hrv
                | true =>
                  simp only [if_true] at hrv
                  cases hrv
                  exact validateReplies_ok_true repliesV hval
          | undefined => simp at h
          | null => simp at h
          | bool b => simp at h
          | num n => simp at h
          | arr xs => simp at h
          | obj fields => simp at h
      | undefined => simp at h
      | null => simp at h
      | bool b => simp at h
      | num n => simp at h
      | arr xs => simp at h
      | obj fields => simp at h

theorem cleanMessages_good : ∀ (ms : List JVal) (out : List CleanMessage),
    cleanMessages ms = .ok out → ∀ m ∈ out, goodCleanMessage m := by
  intro ms
  induction ms with
  | nil =>
    intro out h m hm
    rw [cleanMessages] at h
    simp only [Except.ok.injEq] at h
    subst h
    simp at hm
  | cons x xs ih =>
    intro out h m hm
    rw [cleanMessages] at h
    cases hx : cleanMessage x with
    | error e => simp [hx] at h
    | ok head =>
      simp only [hx] at h
      cases ht : cleanMessages xs with
      | error e => simp [ht] at h
      | ok tail =>
        simp only [ht, Except.ok.injEq] at h
        subst h
        cases head with
        | none => exact ih tail ht m hm
        | some msg =>
          rcases List.mem_cons.mp hm with h1 | h1
          · exact h1 ▸ cleanMessage_good x msg hx
          · exact ih tail ht m h1

theorem outboxStep_good (v : JVal)
    (acc acc' : String → Option (List CleanMessage)) (ch : String)
    (h : outboxStep v acc ch = .ok acc')
    (hacc : ∀ c msgs, acc c = some msgs → ∀ m ∈ msgs, goodCleanMessage m) :
    ∀ c msgs, acc' c = some msgs → ∀ m ∈ msgs, goodCleanMessage m := by
  rw [outboxStep] at h
  cases hp : v.getProp ch with
  | error e => simp [hp] at h
  | ok entry =>
    simp only [hp] at h
    cases hmsgs : (match entry with
        | JVal.arr ms => cleanMessages ms
        | _ => (.ok [] : Except Unit (List CleanMessage))) with
    | error e => simp [hmsgs] at h
    | ok messages =>
      simp only [hmsgs, Except.ok.injEq] at h
      subst h
      intro c msgs hc m hm
      by_cases hcch : c = ch
      · subst hcch
        simp at hc
        subst hc
        cases entry with
        | arr ms => exact cleanMessages_good ms messages hmsgs m hm
        | undefined => simp only [Except.ok.injEq] at hmsgs; subst hmsgs; simp at hm
        | null => simp only [Except.ok.injEq] at hmsgs; subst hmsgs; simp at hm
        | str s => simp only [Except.ok.injEq] at hmsgs; subst hmsgs; simp at hm
        | bool b => simp only [Except.ok.injEq] at hmsgs; subst hmsgs; simp at hm
        | num n => simp only [Except.ok.injEq] at hmsgs; subst hmsgs; simp at hm
        | obj fields =>
          simp only [Except.ok.injEq] at hmsgs; subst hmsgs; simp at hm
      · simp only [if_neg hcch] at hc
        exact hacc c msgs hc m hm

theorem foldlM_outboxStep_good (v : JVal) :
    ∀ (keys : List String) (acc : String → Option (List CleanMessage))
      (res : String → Option (List CleanMessage)),
      keys.foldlM (outboxStep v) acc = .ok res →
      (∀ c msgs, acc c = some msgs → ∀ m ∈ msgs, goodCleanMessage m) →
      ∀ c msgs, res c = some msgs → ∀ m ∈ msgs, goodCleanMessage m := by
  intro keys
  induction keys with
  | nil =>
    intro acc res h hacc
    simp only [List.foldlM_nil, pure, Except.pure, Except.ok.injEq] at h
    subst h
    exact hacc
  | cons k ks ih =>
    intro acc res h hacc
    rw [List.foldlM_cons] at h
    cases hs : outboxStep v acc k with
    | error e => rw [hs] at h; simp [Bind.bind, Except.bind] at h
    | ok acc1 =>
      rw [hs] at h
      simp only [Bind.bind, Except.bind] at h
      exact ih acc1 res h (outboxStep_good v acc acc1 k hs hacc)

/-- C10: every outbox entry in the output of `clean` has status `"unsent"`
(so a persisted `"sending"` or `"failed"` entry that passes validation is
rewritten to `"unsent"`), carries no `files` field, and carries its raw
`replies` value only when that value is a well-formed, non-empty replies
array — besides these only `idempotencyKey` and `content` are kept. -/
theorem clean_outbox_spec (input : CleanInput) (out : CleanTypeDraft)
    (hok : clean input = .ok out) :
    ∀ channelId msgs, out.outbox channelId = some msgs →
      ∀ m ∈ msgs,
        m.status = "unsent" ∧ m.files = none ∧
        (∀ rv, m.replies = some rv →
          ∃ x xs, rv = JVal.arr (x :: xs) ∧
            ∀ y ∈ x :: xs, replyElemBad y = .ok false) := by
  rw [clean] at hok
  cases hds : ((if input.drafts.typeof = "object" then
        match jsKeys input.drafts with
        | .error e => .error e
        | .ok keys => keys.foldlM (draftsStep input.drafts) (fun _ => none)
      else .ok (fun _ => none)) :
      Except Unit (String → Option CleanDraft)) with
  | error e => simp [hds] at hok
  | ok draftsOut =>
    simp only [hds] at hok
    cases hob : ((if input.outbox.typeof = "object" then
          match jsKeys input.outbox with
          | .error e => .error e
          | .ok keys => keys.foldlM (outboxStep input.outbox) (fun _ => none)
        else .ok (fun _ => none)) :
        Except Unit (String → Option (List CleanMessage))) with
    | error e => simp [hob] at hok
    | ok outboxOut =>
      simp only [hob, Except.ok.injEq] at hok
      subst hok
      by_cases hty : input.outbox.typeof = "object"
      · rw [if_pos hty] at hob
        cases hk : jsKeys input.outbox with
        | error e => simp [hk] at hob
        | ok keys =>
          simp only [hk] at hob
          intro channelId msgs hmsgs m hm
          exact foldlM_outboxStep_good input.outbox keys (fun _ => none)
            outboxOut hob (by intro c ms hcm; simp at hcm)
            channelId msgs hmsgs m hm
      · rw [if_neg hty] at hob
        simp only [Except.ok.injEq] at hob
        intro channelId msgs hmsgs
        rw [← hob] at hmsgs
        simp at hmsgs

/-- A persisted outbox entry with status `"sending"`, a stray `files`
field, and one valid reply. -/
def rawSendingEntry : JVal :=
  .obj [("status", .str "sending"),
        ("idempotencyKey", .str "ik"),
        ("content", .str "hello"),
        ("files", .arr [.str "f1"]),
        ("replies", .arr [.obj [("id", .str "m"), ("mention", .bool true)]])]

/-- A persisted store whose channel `"c"` carries `rawSendingEntry`. -/
def rawCleanInput : CleanInput :=
  { outbox := .obj [("c", .arr [rawSendingEntry])] }

/-- What `clean` makes of `rawSendingEntry`. -/
def cleanedMessage : CleanMessage :=
  { idempotencyKey := "ik", content := "hello", status := "unsent",
    replies := some (.arr [.obj [("id", .str "m"), ("mention", .bool true)]]),
    files := none }

/-- What `clean` returns on `rawCleanInput`. -/
def cleanedOutput : CleanTypeDraft :=
  { drafts := fun _ => none,
    outbox := fun k => if k = "c" then some [cleanedMessage] else none }

/-- Witness for C10: the `"sending"` entry comes out with status
`"unsent"`, no files, and its replies kept. -/
theorem clean_outbox_spec_witness :
    clean rawCleanInput = .ok cleanedOutput ∧
    cleanedOutput.outbox "c" = some [cleanedMessage] ∧
    cleanedMessage ∈ [cleanedMessage] ∧
    cleanedMessage.status = "unsent" ∧
    cleanedMessage.files = none ∧
    (∀ rv, cleanedMessage.replies = some rv →
      ∃ x xs, rv = JVal.arr (x :: xs) ∧
        ∀ y ∈ x :: xs, replyElemBad y = .ok false) := by
  have h := clean_outbox_spec rawCleanInput cleanedOutput rfl "c"
    [cleanedMessage] rfl cleanedMessage (List.mem_singleton.mpr rfl)
  exact ⟨rfl, rfl, List.mem_singleton.mpr rfl, h.1, h.2.1, h.2.2⟩

end Draft
